import Mathlib

/-!
Verification development for the chainsights client
(crates/chainsights_client). The Rust source is shallowly embedded:
bytes are `List Nat`, strings are Lean `String`, fallible code returns
`Except`, and the network / external-library boundaries
(HTTP fetch + signature verification + statement decoding, X.509 DER
parsing, PURL parsing, SHA-256) are passed in as explicit oracle
parameters, exactly at the call sites where the Rust code crosses them.
-/

/-- Single-quote character as a string, used to reproduce the quoting in
the Rust error-message format strings. -/
def squote : String := (Char.ofNat 39).toString

/-- ASCII bytes of a (pure-ASCII) string literal. -/
def asciiBytes (s : String) : List Nat := s.data.map Char.toNat

/-- ASCII decimal rendering of a natural number as bytes; models the
`{}` formatting of a Rust `usize`. -/
def natDecimalAscii (n : Nat) : List Nat := (Nat.toDigits 10 n).map Char.toNat

/-- ASCII-lowercase folding of a single character, as in Rust
`u8::to_ascii_lowercase`: only A-Z are mapped. -/
def asciiLowerChar (c : Char) : Char :=
  if 65 ≤ c.toNat ∧ c.toNat ≤ 90 then Char.ofNat (c.toNat + 32) else c

/-- Rust `str::eq_ignore_ascii_case`: equality after ASCII-lowercasing
both sides. -/
def eq_ignore_ascii_case (a b : String) : Bool :=
  a.data.map asciiLowerChar == b.data.map asciiLowerChar

/- ## attestation.rs: construct_pae -/

/-- The header built by `format!("DSSEv1 {} {} {} ", payload_type.len(),
payload_type, payload.len())` in `construct_pae` (attestation.rs).
`payload_type` is carried as its UTF-8 byte sequence, so `.length` is the
Rust byte length `str::len`. -/
def pae_header (payload_type : List Nat) (payload : List Nat) : List Nat :=
  asciiBytes "DSSEv1 " ++ natDecimalAscii payload_type.length ++ asciiBytes " "
    ++ payload_type ++ asciiBytes " " ++ natDecimalAscii payload.length ++ asciiBytes " "

/-- `construct_pae` (attestation.rs lines 69-80): the header bytes followed
by the raw payload bytes. -/
def construct_pae (payload_type : List Nat) (payload : List Nat) : List Nat :=
  pae_header payload_type payload ++ payload

/- ## attestation.rs: inspect_certificate_identity_from_der -/

/-- Subject Alternative Name entries, mirroring the `GeneralName` cases the
code can encounter; only `RFC822Name` is consulted by the identity check. -/
inductive GeneralName where
  | RFC822Name (email : String)
  | DNSName (name : String)
  | URI (uri : String)
  | Other
deriving DecidableEq

instance {e a : Type} [DecidableEq e] [DecidableEq a] : DecidableEq (Except e a)
  | Except.ok x, Except.ok y =>
    if h : x = y then Decidable.isTrue (by rw [h])
    else Decidable.isFalse (fun hh => by cases hh; exact h rfl)
  | Except.ok _, Except.error _ => Decidable.isFalse (fun hh => by cases hh)
  | Except.error _, Except.ok _ => Decidable.isFalse (fun hh => by cases hh)
  | Except.error x, Except.error y =>
    if h : x = y then Decidable.isTrue (by rw [h])
    else Decidable.isFalse (fun hh => by cases hh; exact h rfl)

/-- The part of a parsed X.509 certificate the identity check reads:
the result of `cert.subject_alternative_name()`, a
`Result<Option<SubjectAlternativeName>>`. -/
structure X509Certificate where
  san : Except String (Option (List GeneralName))
deriving DecidableEq

/-- The two `bail!` sites of `inspect_certificate_identity_from_der`,
as distinct error constructors carrying the formatted data. -/
inductive CertIdentityError where
  | identityNotFound (expected : String)
  | malformedCertificate (msg : String)
deriving DecidableEq

/-- The SAN scanning loop of `inspect_certificate_identity_from_der`
(attestation.rs lines 94-103): sets the flag on the first `RFC822Name`
that matches case-insensitively; every other SAN kind is skipped. -/
def findIdentityInSan (names : List GeneralName) (expected : String) : Bool :=
  names.any (fun n =>
    match n with
    | GeneralName.RFC822Name email => eq_ignore_ascii_case email expected
    | _ => false)

/-- The SAN list actually scanned: the loop runs only in the
`Ok(Some(san))` arm; `Ok(None)` and `Err(_)` leave the flag false. -/
def sanNames (cert : X509Certificate) : List GeneralName :=
  match cert.san with
  | Except.ok (some names) => names
  | _ => []

/-- `inspect_certificate_identity_from_der` (attestation.rs lines 84-121),
with the external `parse_x509_certificate` passed as an oracle over the
DER bytes. -/
def inspect_certificate_identity_from_der
    (parse : List Nat → Except String X509Certificate)
    (cert_der_bytes : List Nat) (expected_identity : String) :
    Except CertIdentityError Unit :=
  match parse cert_der_bytes with
  | Except.ok cert =>
    let identity_found_in_san :=
      match cert.san with
      | Except.ok (some names) => findIdentityInSan names expected_identity
      | _ => false
    if identity_found_in_san then Except.ok ()
    else Except.error (CertIdentityError.identityNotFound expected_identity)
  | Except.error e => Except.error (CertIdentityError.malformedCertificate e)

/- ## fetch.rs: fetch_and_verify_artifact -/

/-- `ArtifactLink` (models/chainsights.rs lines 181-190); the
`HashMap<String, String>` digest map is carried as an association list. -/
structure ArtifactLink where
  uri : String
  digest : Option (List (String × String))
  media_type : Option String
  expected_signer_identity : Option String
deriving DecidableEq

/-- `HashMap::get` on the association-list model: value of the first
binding of the key. -/
def mapGet (m : List (String × String)) (k : String) : Option String :=
  (m.find? (fun p => p.1 = k)).map (fun p => p.2)

/-- The two `anyhow!` error sites of `fetch_and_verify_artifact` that
concern digest checking, as constructors carrying the formatted data. -/
inductive ArtifactError where
  | emptyExpectedDigest (uri : String)
  | digestMismatch (uri expected computed : String)
deriving DecidableEq

/-- The warning printed by `fetch_and_verify_artifact` when the link has
no sha256 digest (fetch.rs lines 116-119). -/
def noDigestWarning (uri : String) : String :=
  "Warning: No sha256 digest provided for URI " ++ squote ++ uri ++ squote
    ++ ". Skipping integrity check."

/-- The digest-verification tail of `fetch_and_verify_artifact`
(fetch.rs lines 85-122), given the successfully fetched body bytes.
`sha256hex` is the oracle for `hex::encode(Sha256::digest(bytes))`
(which produces lowercase hex). Returns the result together with the
list of warnings emitted. -/
def fetch_and_verify_artifact (sha256hex : List Nat → String)
    (link : ArtifactLink) (bytes : List Nat) :
    Except ArtifactError (List Nat) × List String :=
  match link.digest.bind (fun d => mapGet d "sha256") with
  | some expected_sha256_hex =>
    if expected_sha256_hex = "" then
      (Except.error (ArtifactError.emptyExpectedDigest link.uri), [])
    else
      let calculated_sha256_hex := sha256hex bytes
      if eq_ignore_ascii_case calculated_sha256_hex expected_sha256_hex then
        (Except.ok bytes, [])
      else
        (Except.error (ArtifactError.digestMismatch link.uri expected_sha256_hex
          calculated_sha256_hex), [])
  | none => (Except.ok bytes, [noDigestWarning link.uri])

/- ## models/chainsights.rs: data model (fields read by the code under proof;
purely informational optional fields that no code path under proof reads
are not carried) -/

/-- `AttestationLink` (models/chainsights.rs lines 13-22). -/
structure AttestationLink where
  uri : String
  digest : Option (List (String × String))
  media_type : Option String
  expected_signer_identity : String
deriving DecidableEq

/-- `CatalogComponentEntry` (models/chainsights.rs lines 57-68). -/
structure CatalogComponentEntry where
  name : String
  component_purl : String
  component_attestation_link : AttestationLink
deriving DecidableEq

/-- `ChainsightsCatalogPredicate` (models/chainsights.rs lines 40-52). -/
structure ChainsightsCatalogPredicate where
  timestamp : String
  components : List CatalogComponentEntry
deriving DecidableEq

/-- `ChainsightsComponentPredicate` (models/chainsights.rs lines 83-112). -/
structure ChainsightsComponentPredicate where
  timestamp : String
  purl : String
  name : String
  release_attestations : List AttestationLink
deriving DecidableEq

/-- `ChainsightsReleasePredicate` (models/chainsights.rs lines 144-168). -/
structure ChainsightsReleasePredicate where
  timestamp : String
  purl : String
  name : String
  metadata_links : Option (List ArtifactLink)
deriving DecidableEq

/-- `ChainsightsPredicate` (models/chainsights.rs lines 26-35); the raw
JSON value of the `Unknown` case is abstracted away. -/
inductive ChainsightsPredicate where
  | Catalog (c : ChainsightsCatalogPredicate)
  | Component (c : ChainsightsComponentPredicate)
  | Release (r : ChainsightsReleasePredicate)
  | Unknown (predicate_type : String)
deriving DecidableEq

/-- Abstraction of the Rust `{:?}` (Debug) rendering of a predicate used in
the `Expected ... predicate, found {:?}` messages; the claims depend only
on it being a function of the predicate value. -/
def debugStr : ChainsightsPredicate → String
  | ChainsightsPredicate.Catalog _ => "Catalog"
  | ChainsightsPredicate.Component _ => "Component"
  | ChainsightsPredicate.Release _ => "Release"
  | ChainsightsPredicate.Unknown t => "Unknown " ++ t

/- ## models/aggregation.rs -/

/-- `AggregatedReleaseData` (models/aggregation.rs lines 35-44). -/
structure AggregatedReleaseData where
  release_predicate : Option ChainsightsReleasePredicate
  metadata_artifacts : List ArtifactLink
  release_link_uri : String
  artifact_fetch_errors : List (String × String)
deriving DecidableEq

/-- `AggregatedComponentData` (models/aggregation.rs lines 22-31). -/
structure AggregatedComponentData where
  component_predicate : Option ChainsightsComponentPredicate
  releases : List AggregatedReleaseData
  component_link_uri : String
  release_errors : List (String × String)
deriving DecidableEq

/-- `AggregatedCatalogData` (models/aggregation.rs lines 9-18). -/
structure AggregatedCatalogData where
  catalog_predicate : Option ChainsightsCatalogPredicate
  components : List AggregatedComponentData
  root_error : Option String
  component_errors : List (String × String)
deriving DecidableEq

/- ## traversal.rs -/

/-- `MAX_DEPTH` (traversal.rs line 9). -/
def MAX_DEPTH : Nat := 10

/-- The fetch-verify-decode pipeline of `process_attestation_uri`
(traversal.rs lines 192-215): `fetch_manifest_text` followed by
`verify_signature_with_pae` and statement/predicate parsing. It is
network and crypto I/O, so it enters the embedding as an oracle from
`(uri, expected_identity)` to the decoded predicate or an error string;
each oracle consultation is one network fetch of the URI. -/
def Net : Type := String → String → Except String ChainsightsPredicate

/-- Message of `anyhow!("Cycle detected: URI '{}' already visited", uri)`
(traversal.rs lines 42, 83, 178). -/
def cycleMsg (uri : String) : String :=
  "Cycle detected: URI " ++ squote ++ uri ++ squote ++ " already visited"

/-- Message of `anyhow!("Maximum traversal depth ({}) exceeded at URI '{}'")`
(traversal.rs lines 183-187). -/
def depthExceededMsg (max_depth : Nat) (uri : String) : String :=
  "Maximum traversal depth (" ++ Nat.repr max_depth ++ ") exceeded at URI "
    ++ squote ++ uri ++ squote

/-- Message of the pre-call depth checks, `"Maximum traversal depth ({})
would be exceeded at URI '{}'"` (traversal.rs lines 50-53 and 92). -/
def depthWouldMsg (max_depth : Nat) (uri : String) : String :=
  "Maximum traversal depth (" ++ Nat.repr max_depth ++ ") would be exceeded at URI "
    ++ squote ++ uri ++ squote

/-- Message recorded when the root predicate is not a Catalog
(traversal.rs lines 151-154). -/
def expectedCatalogMsg (root_uri : String) (p : ChainsightsPredicate) : String :=
  "Expected Catalog predicate at root URI " ++ squote ++ root_uri ++ squote
    ++ ", but found " ++ debugStr p

/-- Message recorded when a component URI yields a non-Component predicate
(traversal.rs line 138). -/
def expectedComponentMsg (p : ChainsightsPredicate) : String :=
  "Expected Component predicate, found " ++ debugStr p

/-- Message recorded when a release URI yields a non-Release predicate
(traversal.rs lines 121-123). -/
def expectedReleaseMsg (p : ChainsightsPredicate) : String :=
  "Expected Release predicate, found " ++ debugStr p

/-- Message recorded when processing the root URI itself fails
(traversal.rs line 160). -/
def rootFailMsg (root_uri e : String) : String :=
  "Failed to process root URI " ++ squote ++ root_uri ++ squote ++ ": " ++ e

/-- `process_attestation_uri` (traversal.rs lines 169-216), with the
hard-coded `MAX_DEPTH` generalized to a parameter so that the spec's
`maxDepth` statements are statable. The `HashSet` of visited URIs is a
list with membership; the third result component is the log of URIs
fetched from the network during the call (here: none, or exactly the
one URI, fetched strictly after it was inserted into the visited set). -/
def process_attestation_uri (net : Net) (max_depth : Nat)
    (uri expected_identity : String) (visited : List String) (depth : Nat) :
    Except String ChainsightsPredicate × List String × List String :=
  if uri ∈ visited then
    (Except.error (cycleMsg uri), visited, [])
  else if depth ≥ max_depth then
    (Except.error (depthExceededMsg max_depth uri), visited, [])
  else
    (net uri expected_identity, uri :: visited, [uri])

/-- The release loop of `traverse_and_aggregate` (traversal.rs lines
75-132): per release link, the pre-call cycle and depth checks, then
`process_attestation_uri` at depth 2, recording a release or a release
error. Returns the updated `AggregatedComponentData`, the visited set,
and the fetch log. -/
def processReleases (net : Net) (max_depth : Nat) :
    List AttestationLink → List String → AggregatedComponentData →
    AggregatedComponentData × List String × List String
  | [], visited, acc => (acc, visited, [])
  | release_link :: rest, visited, acc =>
    let uri := release_link.uri
    if uri ∈ visited then
      processReleases net max_depth rest visited
        { acc with release_errors := acc.release_errors ++ [(uri, cycleMsg uri)] }
    else if 1 + 1 ≥ max_depth then
      processReleases net max_depth rest visited
        { acc with release_errors :=
            acc.release_errors ++ [(uri, depthWouldMsg max_depth uri)] }
    else
      match process_attestation_uri net max_depth uri
          release_link.expected_signer_identity visited 2 with
      | (Except.ok (ChainsightsPredicate.Release rp), v1, l1) =>
        let r := processReleases net max_depth rest v1
          { acc with releases := acc.releases ++
              [⟨some rp, rp.metadata_links.getD [], uri, []⟩] }
        (r.1, r.2.1, l1 ++ r.2.2)
      | (Except.ok other, v1, l1) =>
        let r := processReleases net max_depth rest v1
          { acc with release_errors :=
              acc.release_errors ++ [(uri, expectedReleaseMsg other)] }
        (r.1, r.2.1, l1 ++ r.2.2)
      | (Except.error e, v1, l1) =>
        let r := processReleases net max_depth rest v1
          { acc with release_errors := acc.release_errors ++ [(uri, e)] }
        (r.1, r.2.1, l1 ++ r.2.2)

/-- The component loop of `traverse_and_aggregate` (traversal.rs lines
32-147): per catalog entry, the pre-call cycle and depth checks, then
`process_attestation_uri` at depth 1; a Component predicate opens the
release loop, anything else records a component error. -/
def processComponents (net : Net) (max_depth : Nat) :
    List CatalogComponentEntry → List String → AggregatedCatalogData →
    AggregatedCatalogData × List String × List String
  | [], visited, agg => (agg, visited, [])
  | component :: rest, visited, agg =>
    let uri := component.component_attestation_link.uri
    if uri ∈ visited then
      processComponents net max_depth rest visited
        { agg with component_errors := agg.component_errors ++ [(uri, cycleMsg uri)] }
    else if 0 + 1 ≥ max_depth then
      processComponents net max_depth rest visited
        { agg with component_errors :=
            agg.component_errors ++ [(uri, depthWouldMsg max_depth uri)] }
    else
      match process_attestation_uri net max_depth uri
          component.component_attestation_link.expected_signer_identity visited 1 with
      | (Except.ok (ChainsightsPredicate.Component cp), v1, l1) =>
        let rr := processReleases net max_depth cp.release_attestations v1
          ⟨some cp, [], uri, []⟩
        let r := processComponents net max_depth rest rr.2.1
          { agg with components := agg.components ++ [rr.1] }
        (r.1, r.2.1, l1 ++ rr.2.2 ++ r.2.2)
      | (Except.ok other, v1, l1) =>
        let r := processComponents net max_depth rest v1
          { agg with component_errors :=
              agg.component_errors ++ [(uri, expectedComponentMsg other)] }
        (r.1, r.2.1, l1 ++ r.2.2)
      | (Except.error e, v1, l1) =>
        let r := processComponents net max_depth rest v1
          { agg with component_errors := agg.component_errors ++ [(uri, e)] }
        (r.1, r.2.1, l1 ++ r.2.2)

/-- The body of `traverse_and_aggregate` (traversal.rs lines 11-167):
process the root URI at depth 0 and dispatch on the outcome. Returns the
aggregator together with the final visited set and the fetch log. -/
def traverse_core (net : Net) (max_depth : Nat) (root_uri root_identity : String) :
    AggregatedCatalogData × List String × List String :=
  match process_attestation_uri net max_depth root_uri root_identity [] 0 with
  | (Except.ok (ChainsightsPredicate.Catalog catalog), v1, l1) =>
    let r := processComponents net max_depth catalog.components v1
      ⟨some catalog, [], none, []⟩
    (r.1, r.2.1, l1 ++ r.2.2)
  | (Except.ok other, v1, l1) =>
    (⟨none, [], some (expectedCatalogMsg root_uri other), []⟩, v1, l1)
  | (Except.error e, v1, l1) =>
    (⟨none, [], some (rootFailMsg root_uri e), []⟩, v1, l1)

/-- `traverse_and_aggregate` (traversal.rs lines 11-167): the Rust
function has result type `Result<AggregatedCatalogData>` but every path
through its body ends in `Ok(aggregated_data)`; the embedding keeps the
`Except` shape to state that fact. -/
def traverse_and_aggregate (net : Net) (root_uri root_identity : String) :
    Except String AggregatedCatalogData :=
  Except.ok (traverse_core net MAX_DEPTH root_uri root_identity).1

/- ## main.rs: PURL release filtering (handle_commands_purl lines 119-161) -/

/-- The slice of a parsed `PackageUrl` the filtering code reads:
`purl.version()`. `PackageUrl::from_str` is an external crate and enters
as an oracle. -/
structure PurlData where
  version : Option String
deriving DecidableEq

/-- The `anyhow` context message attached when a release predicate purl
fails to parse (main.rs line 141). -/
def parseReleasePurlFailMsg : String := "Failed to parse PURL from release predicate"

/-- The `context` message of `purl.version().context(...)` (main.rs line 143). -/
def expectedVersionMsg : String := "Expected version in purl"

/-- The warning printed when the PURL has no version and `--all-releases`
is not set (main.rs lines 153-155). -/
def noVersionWarning : String :=
  "Warning: PURL has no version, and --all-releases is not specified. No specific release selected."

/-- The inner release-filtering loop of `handle_commands_purl` (main.rs
lines 135-148): for each release with a predicate, parse its `purl` and
compare the version; the two `?` operators propagate failure out of the
whole flow. -/
def filter_releases_by_version (parsePurl : String → Except String PurlData) :
    List AggregatedReleaseData → String → Except String (List AggregatedReleaseData)
  | [], _ => Except.ok []
  | rel_data :: rest, purl_version =>
    match rel_data.release_predicate with
    | none => filter_releases_by_version parsePurl rest purl_version
    | some rel_pred =>
      match parsePurl rel_pred.purl with
      | Except.error _ => Except.error parseReleasePurlFailMsg
      | Except.ok purl =>
        match purl.version with
        | none => Except.error expectedVersionMsg
        | some release_version_field =>
          if release_version_field = purl_version then
            (filter_releases_by_version parsePurl rest purl_version).map
              (fun rs => rel_data :: rs)
          else
            filter_releases_by_version parsePurl rest purl_version

/-- The component-matching loop of `handle_commands_purl` (main.rs lines
123-161), restricted to its filtering outcome: walk the aggregated
components, skip those without a predicate, and at the first one whose
predicate `name` equals the PURL component name produce the selected
releases (with `break`). Returns the selected releases and the warnings
printed. -/
def select_releases (parsePurl : String → Except String PurlData) :
    List AggregatedComponentData → String → Option String → Bool →
    Except String (List AggregatedReleaseData × List String)
  | [], _, _, _ => Except.ok ([], [])
  | comp_data :: rest, component_name, purl_version_opt, all_releases =>
    match comp_data.component_predicate with
    | none => select_releases parsePurl rest component_name purl_version_opt all_releases
    | some comp_pred =>
      if comp_pred.name = component_name then
        if all_releases then Except.ok (comp_data.releases, [])
        else
          match purl_version_opt with
          | some purl_version =>
            (filter_releases_by_version parsePurl comp_data.releases purl_version).map
              (fun rs => (rs, []))
          | none => Except.ok ([], [noVersionWarning])
      else select_releases parsePurl rest component_name purl_version_opt all_releases

/- ## Serialized field names (serde derive model) -/

/-- serde's `RenameRule::CamelCase`: drop each underscore and uppercase
the letter following it. Models the effect of
`#[serde(rename_all = "camelCase")]` on a Rust field identifier. -/
def camelCaseAux : List Char → List Char
  | [] => []
  | c :: rest =>
    if c = Char.ofNat 95 then
      match rest with
      | [] => []
      | d :: rest2 => d.toUpper :: camelCaseAux rest2
    else c :: camelCaseAux rest

/-- Conversion of a snake_case Rust field identifier to the serialized
camelCase name. -/
def camelCase (s : String) : String := String.mk (camelCaseAux s.data)

/-- The serialized field names of a struct: the Rust identifiers, renamed
only when the struct carries `#[serde(rename_all = "camelCase")]`. -/
def serializedFields (rename_all_camel : Bool) (rust_fields : List String) : List String :=
  if rename_all_camel then rust_fields.map camelCase else rust_fields

/-- Rust field identifiers of `AggregatedCatalogData`; the struct has no
`rename_all` attribute (models/aggregation.rs lines 8-18). -/
def aggregatedCatalogDataFields : List String :=
  serializedFields false
    ["catalog_predicate", "components", "root_error", "component_errors"]

/-- Rust field identifiers of `AggregatedComponentData`; no `rename_all`
attribute (models/aggregation.rs lines 21-31). -/
def aggregatedComponentDataFields : List String :=
  serializedFields false
    ["component_predicate", "releases", "component_link_uri", "release_errors"]

/-- Rust field identifiers of `AggregatedReleaseData`; no `rename_all`
attribute (models/aggregation.rs lines 34-44). -/
def aggregatedReleaseDataFields : List String :=
  serializedFields false
    ["release_predicate", "metadata_artifacts", "release_link_uri", "artifact_fetch_errors"]

/-- Serialized field names of the predicate structs embedded in the
aggregated output; each carries `#[serde(rename_all = "camelCase")]`
(models/chainsights.rs). -/
def embeddedPredicateFields : List String :=
  serializedFields true
    ["generator", "timestamp", "components", "sub_catalogs", "metadata_links"] ++
  serializedFields true
    ["name", "description", "component_purl", "component_attestation_link", "labels"] ++
  serializedFields true
    ["uri", "digest", "media_type", "expected_signer_identity"] ++
  serializedFields true
    ["generator", "timestamp", "purl", "name", "description", "aliases", "labels",
      "repositories", "sub_components", "release_attestations", "metadata_links"] ++
  serializedFields true
    ["repo_type", "uri", "paths", "primary_path"] ++
  serializedFields true
    ["generator", "timestamp", "purl", "name", "release_date", "release_notes_uri",
      "lifecycle_phase", "metadata_links", "artifacts"]

/-- All field names appearing in the serialized aggregated output:
the three aggregation structs plus the embedded predicate structs. -/
def aggregatedOutputFieldNames : List String :=
  aggregatedCatalogDataFields ++ aggregatedComponentDataFields ++
    aggregatedReleaseDataFields ++ embeddedPredicateFields

/-- A name is lowerCamelCase when it is nonempty, starts with a lowercase
letter and contains no underscore. -/
def is_lower_camel (s : String) : Bool :=
  !(s.data.contains (Char.ofNat 95)) &&
    (match s.data with
     | [] => false
     | c :: _ => c.isLower)

/- ## Theorems -/

/-- Helper: the SAN scanning loop returns true exactly when some RFC822
SAN matches the expected identity case-insensitively. -/
lemma findIdentityInSan_eq_true (names : List GeneralName) (expected : String) :
    findIdentityInSan names expected = true ↔
      ∃ email, GeneralName.RFC822Name email ∈ names ∧
        eq_ignore_ascii_case email expected = true := by
  unfold findIdentityInSan
  rw [List.any_eq_true]
  constructor
  · rintro ⟨n, hn, hmatch⟩
    cases n with
    | RFC822Name email => exact ⟨email, hn, hmatch⟩
    | DNSName h => exact absurd hmatch (by simp)
    | URI h => exact absurd hmatch (by simp)
    | Other => exact absurd hmatch (by simp)
  · rintro ⟨email, hmem, heq⟩
    exact ⟨GeneralName.RFC822Name email, hmem, heq⟩

/-- C1: for every payload-type byte string T and payload P, the PAE
construction returns exactly the concatenation of "DSSEv1 ", the ASCII
decimal byte-length of T, a space (byte 32), T, a space, the ASCII
decimal byte-length of P, a space, and P; the output length equals the
header length plus the payload length; and (no trailing newline) the last
byte of the output is the last byte of P when P is nonempty. -/
theorem pae_bit_exact (T P : List Nat) :
    construct_pae T P =
      asciiBytes "DSSEv1 " ++ natDecimalAscii T.length ++ [32] ++ T ++ [32]
        ++ natDecimalAscii P.length ++ [32] ++ P ∧
    (construct_pae T P).length = (pae_header T P).length + P.length ∧
    (P = [] ∨ (construct_pae T P).getLast? = P.getLast?) := by
  refine ⟨?_, ?_, ?_⟩
  · show pae_header T P ++ P = _
    have hsp : asciiBytes " " = [32] := rfl
    simp [pae_header, hsp, List.append_assoc]
  · simp [construct_pae]
  · by_cases hP : P = []
    · exact Or.inl hP
    · exact Or.inr (by
        show (pae_header T P ++ P).getLast? = P.getLast?
        exact List.getLast?_append_of_ne_nil _ hP)

/-- C4: for a well-formed DER certificate (one the X.509 parser accepts),
the identity check succeeds iff at least one RFC822 (email) SAN equals the
expected identity under ASCII case-insensitive comparison; SAN entries of
other kinds are ignored. -/
theorem cert_identity_iff (parse : List Nat → Except String X509Certificate)
    (der : List Nat) (expected : String) (cert : X509Certificate)
    (h : parse der = Except.ok cert) :
    (inspect_certificate_identity_from_der parse der expected = Except.ok () ↔
      ∃ email, GeneralName.RFC822Name email ∈ sanNames cert ∧
        eq_ignore_ascii_case email expected = true) := by
  unfold inspect_certificate_identity_from_der
  rw [h]
  rcases hs : cert.san with e | o
  · simp [sanNames, hs]
  · rcases o with _ | names
    · simp [sanNames, hs]
    · simp only [sanNames, hs]
      by_cases hf : findIdentityInSan names expected
      · simp only [hf, if_true]
        constructor
        · intro _; exact (findIdentityInSan_eq_true names expected).mp hf
        · intro _; trivial
      · simp only [Bool.not_eq_true] at hf
        simp only [hf, if_false]
        constructor
        · intro hcontra; cases hcontra
        · intro hex
          rw [(findIdentityInSan_eq_true names expected).mpr hex] at hf
          cases hf

/-- Witness for C4 at a concrete certificate: the spec's example
`alice@Example.COM` matches `ALICE@example.com`; a DNS SAN is ignored. -/
theorem cert_identity_iff_witness :
    inspect_certificate_identity_from_der
      (fun _ => Except.ok ⟨Except.ok (some [GeneralName.DNSName "example.com",
        GeneralName.RFC822Name "alice@Example.COM"])⟩) [48] "ALICE@example.com" =
      Except.ok () :=
  (cert_identity_iff
    (fun _ => Except.ok ⟨Except.ok (some [GeneralName.DNSName "example.com",
      GeneralName.RFC822Name "alice@Example.COM"])⟩) [48] "ALICE@example.com"
    ⟨Except.ok (some [GeneralName.DNSName "example.com",
      GeneralName.RFC822Name "alice@Example.COM"])⟩ rfl).mpr
    ⟨"alice@Example.COM", by decide, by decide⟩

/-- C5 counterexample: a certificate that parses but whose SAN extension
is absent (`Ok(None)`) yields the identity-not-found error (the bail at
attestation.rs line 111), not the malformed-certificate error the claim
requires. -/
theorem cert_identity_error_counterexample :
    inspect_certificate_identity_from_der
      (fun _ => Except.ok ⟨Except.ok none⟩) [48] "alice@example.com" =
      Except.error (CertIdentityError.identityNotFound "alice@example.com") := rfl

/-- C5 amended: the identity check fails with the identity-not-found
error (carrying only the expected identity; observed SANs are printed,
not carried) whenever parsing succeeds and no RFC822 SAN matches —
including when the SAN extension is absent or unparseable — and fails
with the malformed-certificate error exactly when X.509 parsing fails. -/
theorem cert_identity_errors_amended :
    (∀ parse der expected e, parse der = Except.error e →
      inspect_certificate_identity_from_der parse der expected =
        Except.error (CertIdentityError.malformedCertificate e)) ∧
    (∀ parse der expected cert, parse der = Except.ok cert →
      findIdentityInSan (sanNames cert) expected = false →
      inspect_certificate_identity_from_der parse der expected =
        Except.error (CertIdentityError.identityNotFound expected)) := by
  constructor
  · intro parse der expected e h
    unfold inspect_certificate_identity_from_der
    rw [h]
  · intro parse der expected cert h hf
    unfold inspect_certificate_identity_from_der
    rw [h]
    rcases hs : cert.san with e | o
    · simp [hs]
    · rcases o with _ | names
      · simp [hs]
      · simp only [sanNames, hs] at hf
        simp [hs, hf]

/-- Witness for C5's amended theorem: a parse failure yields the
malformed-certificate error; an unparseable SAN extension yields the
identity-not-found error. -/
theorem cert_identity_errors_amended_witness :
    inspect_certificate_identity_from_der (fun _ => Except.error "bad der") [1] "a@x" =
        Except.error (CertIdentityError.malformedCertificate "bad der") ∧
    inspect_certificate_identity_from_der
        (fun _ => Except.ok ⟨Except.error "bad san"⟩) [2] "a@x" =
        Except.error (CertIdentityError.identityNotFound "a@x") :=
  ⟨cert_identity_errors_amended.1 (fun _ => Except.error "bad der") [1] "a@x" "bad der" rfl,
   cert_identity_errors_amended.2 (fun _ => Except.ok ⟨Except.error "bad san"⟩) [2] "a@x"
     ⟨Except.error "bad san"⟩ rfl (by decide)⟩

/-- C6: given a successfully fetched body, the artifact verifier returns
the body exactly when the computed hex digest matches the non-empty
expected `sha256` entry case-insensitively, reports a digest mismatch
(with expected and computed) on inequality, fails on a present-but-empty
entry, and returns the body with exactly one warning when no `sha256`
entry is present. -/
theorem artifact_digest_check (sha256hex : List Nat → String)
    (link : ArtifactLink) (bytes : List Nat) :
    (∀ expected, link.digest.bind (fun d => mapGet d "sha256") = some expected →
      expected ≠ "" →
      ((fetch_and_verify_artifact sha256hex link bytes).1 = Except.ok bytes ↔
        eq_ignore_ascii_case (sha256hex bytes) expected = true) ∧
      (eq_ignore_ascii_case (sha256hex bytes) expected = false →
        (fetch_and_verify_artifact sha256hex link bytes).1 =
          Except.error (ArtifactError.digestMismatch link.uri expected (sha256hex bytes))) ∧
      (fetch_and_verify_artifact sha256hex link bytes).2 = []) ∧
    (link.digest.bind (fun d => mapGet d "sha256") = some "" →
      fetch_and_verify_artifact sha256hex link bytes =
        (Except.error (ArtifactError.emptyExpectedDigest link.uri), [])) ∧
    (link.digest.bind (fun d => mapGet d "sha256") = none →
      fetch_and_verify_artifact sha256hex link bytes =
        (Except.ok bytes, [noDigestWarning link.uri])) := by
  refine ⟨?_, ?_, ?_⟩
  · intro expected hget hne
    unfold fetch_and_verify_artifact
    rw [hget]
    simp only [hne, if_false]
    by_cases hcmp : eq_ignore_ascii_case (sha256hex bytes) expected
    · simp [hcmp]
    · simp only [Bool.not_eq_true] at hcmp
      refine ⟨?_, ?_, ?_⟩
      · simp only [hcmp, if_false]
        constructor
        · intro hcontra; cases hcontra
        · intro htrue; exact absurd htrue (by simp [hcmp])
      · intro _; simp [hcmp]
      · simp [hcmp]
  · intro hget
    unfold fetch_and_verify_artifact
    rw [hget]
    simp
  · intro hget
    unfold fetch_and_verify_artifact
    rw [hget]

/-- Witness for C6: an uppercase expected digest matches the lowercase
computed digest; and a link without a digest returns the body with the
warning. -/
theorem artifact_digest_check_witness :
    (fetch_and_verify_artifact (fun _ => "abc1")
        ⟨"https://a/sbom.json", some [("sha256", "ABC1")], none, none⟩ [1, 2]).1 =
      Except.ok [1, 2] ∧
    fetch_and_verify_artifact (fun _ => "abc1")
        ⟨"https://a/sbom.json", none, none, none⟩ [1, 2] =
      (Except.ok [1, 2], [noDigestWarning "https://a/sbom.json"]) :=
  ⟨((artifact_digest_check (fun _ => "abc1")
      ⟨"https://a/sbom.json", some [("sha256", "ABC1")], none, none⟩ [1, 2]).1
      "ABC1" rfl (by decide)).1.mpr (by decide),
   (artifact_digest_check (fun _ => "abc1")
      ⟨"https://a/sbom.json", none, none, none⟩ [1, 2]).2.2 rfl⟩

/-- Whether a release passes the version filter of `handle_commands_purl`:
it has a predicate whose purl parses and whose version equals the target. -/
def releaseMatches (parsePurl : String → Except String PurlData) (v : String)
    (rel : AggregatedReleaseData) : Bool :=
  match rel.release_predicate with
  | none => false
  | some p =>
    match parsePurl p.purl with
    | Except.ok d => d.version == some v
    | Except.error _ => false

/-- C7 counterexample: a matched component with one release whose
predicate purl parses to a version-less PURL makes the whole flow fail
with "Expected version in purl" (the `?` at main.rs line 143), rather
than excluding that release and continuing. -/
theorem purl_version_filter_counterexample :
    select_releases (fun _ => Except.ok ⟨none⟩)
      [⟨some ⟨"t", "pkg:chainsights/example.com/core", "core", []⟩,
        [⟨some ⟨"t", "pkg:chainsights/example.com/core", "core-latest", none⟩,
          [], "https://r1", []⟩],
        "https://c1", []⟩]
      "core" (some "1.2.0") false = Except.error expectedVersionMsg := rfl

/-- C7 amended: in the PURL flow without allReleases and with a PURL
version, the selected releases of the matched component are exactly those
whose own purl parses with a version equal to the PURL version — provided
every release predicate's purl parses and carries a version; when some
release's purl fails to parse or lacks a version, the flow fails with that
error instead of skipping the release. Components without a predicate or
with a different name are skipped. -/
theorem purl_version_filter_amended :
    (∀ parsePurl (releases : List AggregatedReleaseData) (v : String),
      (∀ rel ∈ releases, ∀ p, rel.release_predicate = some p →
        ∃ d ver, parsePurl p.purl = Except.ok d ∧ d.version = some ver) →
      filter_releases_by_version parsePurl releases v =
        Except.ok (releases.filter (releaseMatches parsePurl v))) ∧
    (∀ parsePurl comp rest name v pred,
      comp.component_predicate = some pred → pred.name = name →
      select_releases parsePurl (comp :: rest) name (some v) false =
        (filter_releases_by_version parsePurl comp.releases v).map
          (fun rs => (rs, []))) ∧
    (∀ parsePurl comp rest name vopt allr pred,
      comp.component_predicate = some pred → pred.name ≠ name →
      select_releases parsePurl (comp :: rest) name vopt allr =
        select_releases parsePurl rest name vopt allr) ∧
    (∀ parsePurl comp rest name vopt allr,
      comp.component_predicate = none →
      select_releases parsePurl (comp :: rest) name vopt allr =
        select_releases parsePurl rest name vopt allr) := by
  refine ⟨?_, ?_, ?_, ?_⟩
  · intro parsePurl releases v hall
    induction releases with
    | nil => rfl
    | cons rel rest ih =>
      have hrest : ∀ r ∈ rest, ∀ p, r.release_predicate = some p →
          ∃ d ver, parsePurl p.purl = Except.ok d ∧ d.version = some ver :=
        fun r hr => hall r (List.mem_cons_of_mem rel hr)
      rcases hp : rel.release_predicate with _ | p
      · rw [List.filter_cons]
        simp only [releaseMatches, hp]
        simpa [filter_releases_by_version, hp] using ih hrest
      · obtain ⟨d, ver, hparse, hver⟩ :=
          hall rel (List.mem_cons_self rel rest) p hp
        rw [List.filter_cons]
        simp only [releaseMatches, hp, hparse, hver]
        by_cases hv : ver = v
        · subst hv
          simp only [beq_self_eq_true, if_true]
          simp [filter_releases_by_version, hp, hparse, hver, ih hrest,
            Except.map]
        · have hbeq : (some ver == some v) = false := by
            simp [hv]
          simp only [hbeq, if_false]
          simpa [filter_releases_by_version, hp, hparse, hver, hv]
            using ih hrest
  · intro parsePurl comp rest name v pred hpred hname
    simp [select_releases, hpred, hname]
  · intro parsePurl comp rest name vopt allr pred hpred hname
    simp [select_releases, hpred, hname]
  · intro parsePurl comp rest name vopt allr hpred
    simp [select_releases, hpred]

/-- Witness for C7's amended theorem: a component with releases at
versions 1.2.0 and 1.1.0 filtered for 1.2.0 keeps exactly the 1.2.0
release. -/
theorem purl_version_filter_amended_witness :
    filter_releases_by_version
        (fun s => if s = "p1" then Except.ok ⟨some "1.2.0"⟩
          else Except.ok ⟨some "1.1.0"⟩)
        [⟨some ⟨"t", "p1", "r1", none⟩, [], "https://r1", []⟩,
         ⟨some ⟨"t", "p2", "r2", none⟩, [], "https://r2", []⟩] "1.2.0" =
      Except.ok [⟨some ⟨"t", "p1", "r1", none⟩, [], "https://r1", []⟩] := by
  rw [purl_version_filter_amended.1
    (fun s => if s = "p1" then Except.ok ⟨some "1.2.0"⟩ else Except.ok ⟨some "1.1.0"⟩)
    [⟨some ⟨"t", "p1", "r1", none⟩, [], "https://r1", []⟩,
     ⟨some ⟨"t", "p2", "r2", none⟩, [], "https://r2", []⟩] "1.2.0"
    (by
      intro rel hrel p hp
      simp only [List.mem_cons, List.mem_singleton] at hrel
      rcases hrel with h | h | h
      · subst h
        cases hp
        exact ⟨⟨some "1.2.0"⟩, "1.2.0", rfl, rfl⟩
      · subst h
        cases hp
        exact ⟨⟨some "1.1.0"⟩, "1.1.0", by decide, rfl⟩
      · cases h)]
  decide

/-- C9 counterexample: the aggregation structs carry no serde rename
attribute, so the serialized name of the `catalog_predicate` field is the
snake_case Rust identifier, which is not lowerCamelCase. -/
theorem output_casing_counterexample :
    ("catalog_predicate" ∈ aggregatedOutputFieldNames) ∧
      is_lower_camel "catalog_predicate" = false ∧
      aggregatedOutputFieldNames.all is_lower_camel = false := by decide

/-- C9 amended: the embedded predicate structs (which carry
`#[serde(rename_all = "camelCase")]`) serialize with lowerCamelCase field
names, but the three aggregation structs serialize with their snake_case
Rust identifiers; exactly the listed ten aggregation field names are not
lowerCamelCase. -/
theorem output_casing_amended :
    embeddedPredicateFields.all is_lower_camel = true ∧
    (aggregatedCatalogDataFields ++ aggregatedComponentDataFields ++
        aggregatedReleaseDataFields).filter (fun s => !(is_lower_camel s)) =
      ["catalog_predicate", "root_error", "component_errors",
        "component_predicate", "component_link_uri", "release_errors",
        "release_predicate", "metadata_artifacts", "release_link_uri",
        "artifact_fetch_errors"] := by decide

/- ## Traversal invariants -/

/-- Composing two traversal phases: if each phase only grows the visited
set and fetches only fresh URIs that it marks visited, so does the
composite. -/
lemma trace_step (v1 v2 v3 l2 l3 : List String)
    (h12 : v1 ⊆ v2) (hnd2 : l2.Nodup) (hl2 : ∀ u ∈ l2, u ∉ v1 ∧ u ∈ v2)
    (h23 : v2 ⊆ v3) (hnd3 : l3.Nodup) (hl3 : ∀ u ∈ l3, u ∉ v2 ∧ u ∈ v3) :
    v1 ⊆ v3 ∧ (l2 ++ l3).Nodup ∧ ∀ u ∈ l2 ++ l3, u ∉ v1 ∧ u ∈ v3 := by
  refine ⟨h12.trans h23, ?_, ?_⟩
  · refine List.Nodup.append hnd2 hnd3 ?_
    intro a ha2 ha3
    exact (hl3 a ha3).1 ((hl2 a ha2).2)
  · intro u hu
    rcases List.mem_append.mp hu with h | h
    · exact ⟨(hl2 u h).1, h23 ((hl2 u h).2)⟩
    · obtain ⟨hn, hi⟩ := hl3 u h
      exact ⟨fun hv => hn (h12 hv), hi⟩

/-- One fetched URI followed by a well-behaved tail phase. -/
lemma trace_cons_step (uri : String) (visited fv log : List String)
    (h1 : uri ∉ visited) (hsub : uri :: visited ⊆ fv)
    (hnd : log.Nodup) (hlog : ∀ u ∈ log, u ∉ uri :: visited ∧ u ∈ fv) :
    visited ⊆ fv ∧ (uri :: log).Nodup ∧ ∀ u ∈ uri :: log, u ∉ visited ∧ u ∈ fv := by
  have h := trace_step visited (uri :: visited) fv [uri] log
    (List.subset_cons_self _ _) (List.nodup_singleton _)
    (by
      intro u hu
      rcases List.mem_singleton.mp hu with rfl
      exact ⟨h1, List.mem_cons_self _ _⟩)
    hsub hnd hlog
  simpa using h

/-- The three exhaustive behaviours of `process_attestation_uri`. -/
lemma process_attestation_uri_cases (net : Net) (md : Nat)
    (uri ident : String) (visited : List String) (depth : Nat) :
    (uri ∈ visited →
      process_attestation_uri net md uri ident visited depth =
        (Except.error (cycleMsg uri), visited, [])) ∧
    (uri ∉ visited → depth ≥ md →
      process_attestation_uri net md uri ident visited depth =
        (Except.error (depthExceededMsg md uri), visited, [])) ∧
    (uri ∉ visited → depth < md →
      process_attestation_uri net md uri ident visited depth =
        (net uri ident, uri :: visited, [uri])) := by
  refine ⟨?_, ?_, ?_⟩
  · intro h1; simp [process_attestation_uri, h1]
  · intro h1 h2; simp [process_attestation_uri, h1, h2]
  · intro h1 h2
    have h2n : ¬ depth ≥ md := by omega
    simp [process_attestation_uri, h1, h2n]

/-- The release loop only grows the visited set, its fetch log has no
duplicates, and every fetched URI was fresh and ends up visited. -/
lemma processReleases_inv (net : Net) (md : Nat) (links : List AttestationLink) :
    ∀ (visited : List String) (acc : AggregatedComponentData),
      visited ⊆ (processReleases net md links visited acc).2.1 ∧
      (processReleases net md links visited acc).2.2.Nodup ∧
      ∀ u ∈ (processReleases net md links visited acc).2.2,
        u ∉ visited ∧ u ∈ (processReleases net md links visited acc).2.1 := by
  induction links with
  | nil =>
    intro visited acc
    simp [processReleases, List.Subset.refl]
  | cons link rest ih =>
    intro visited acc
    by_cases h1 : link.uri ∈ visited
    · simpa [processReleases, h1] using ih visited
        { acc with release_errors := acc.release_errors ++ [(link.uri, cycleMsg link.uri)] }
    · by_cases h2 : 1 + 1 ≥ md
      · simpa [processReleases, h1, h2] using ih visited
          { acc with release_errors :=
              acc.release_errors ++ [(link.uri, depthWouldMsg md link.uri)] }
      · have h2' : (2 : Nat) < md := by omega
        have hproc := (process_attestation_uri_cases net md link.uri
          link.expected_signer_identity visited 2).2.2 h1 h2'
        rcases hnet : net link.uri link.expected_signer_identity with e | p
        · rw [hnet] at hproc
          have h := ih (link.uri :: visited)
            { acc with release_errors := acc.release_errors ++ [(link.uri, e)] }
          simp only [processReleases, if_neg h1, if_neg h2, hproc]
          exact trace_cons_step link.uri visited _ _ h1 h.1 h.2.1 h.2.2
        · rw [hnet] at hproc
          cases p with
          | Catalog c =>
            have h := ih (link.uri :: visited)
              { acc with release_errors := acc.release_errors ++
                  [(link.uri, expectedReleaseMsg (ChainsightsPredicate.Catalog c))] }
            simp only [processReleases, if_neg h1, if_neg h2, hproc]
            exact trace_cons_step link.uri visited _ _ h1 h.1 h.2.1 h.2.2
          | Component c =>
            have h := ih (link.uri :: visited)
              { acc with release_errors := acc.release_errors ++
                  [(link.uri, expectedReleaseMsg (ChainsightsPredicate.Component c))] }
            simp only [processReleases, if_neg h1, if_neg h2, hproc]
            exact trace_cons_step link.uri visited _ _ h1 h.1 h.2.1 h.2.2
          | Release rp =>
            have h := ih (link.uri :: visited)
              { acc with releases := acc.releases ++
                  [⟨some rp, rp.metadata_links.getD [], link.uri, []⟩] }
            simp only [processReleases, if_neg h1, if_neg h2, hproc]
            exact trace_cons_step link.uri visited _ _ h1 h.1 h.2.1 h.2.2
          | Unknown t =>
            have h := ih (link.uri :: visited)
              { acc with release_errors := acc.release_errors ++
                  [(link.uri, expectedReleaseMsg (ChainsightsPredicate.Unknown t))] }
            simp only [processReleases, if_neg h1, if_neg h2, hproc]
            exact trace_cons_step link.uri visited _ _ h1 h.1 h.2.1 h.2.2

/-- The component loop only grows the visited set, its fetch log has no
duplicates, and every fetched URI was fresh and ends up visited. -/
lemma processComponents_inv (net : Net) (md : Nat)
    (entries : List CatalogComponentEntry) :
    ∀ (visited : List String) (agg : AggregatedCatalogData),
      visited ⊆ (processComponents net md entries visited agg).2.1 ∧
      (processComponents net md entries visited agg).2.2.Nodup ∧
      ∀ u ∈ (processComponents net md entries visited agg).2.2,
        u ∉ visited ∧ u ∈ (processComponents net md entries visited agg).2.1 := by
  induction entries with
  | nil =>
    intro visited agg
    simp [processComponents, List.Subset.refl]
  | cons entry rest ih =>
    intro visited agg
    by_cases h1 : entry.component_attestation_link.uri ∈ visited
    · simpa [processComponents, h1] using ih visited
        { agg with component_errors := agg.component_errors ++
            [(entry.component_attestation_link.uri,
              cycleMsg entry.component_attestation_link.uri)] }
    · by_cases h2 : 0 + 1 ≥ md
      · simpa [processComponents, h1, h2] using ih visited
          { agg with component_errors := agg.component_errors ++
              [(entry.component_attestation_link.uri,
                depthWouldMsg md entry.component_attestation_link.uri)] }
      · have h2' : (1 : Nat) < md := by omega
        have hproc := (process_attestation_uri_cases net md
          entry.component_attestation_link.uri
          entry.component_attestation_link.expected_signer_identity visited 1).2.2 h1 h2'
        rcases hnet : net entry.component_attestation_link.uri
            entry.component_attestation_link.expected_signer_identity with e | p
        · rw [hnet] at hproc
          have h := ih (entry.component_attestation_link.uri :: visited)
            { agg with component_errors := agg.component_errors ++
                [(entry.component_attestation_link.uri, e)] }
          simp only [processComponents, if_neg h1, if_neg h2, hproc]
          exact trace_cons_step entry.component_attestation_link.uri visited _ _
            h1 h.1 h.2.1 h.2.2
        · rw [hnet] at hproc
          cases p with
          | Component cp =>
            have hrel := processReleases_inv net md cp.release_attestations
              (entry.component_attestation_link.uri :: visited)
              ⟨some cp, [], entry.component_attestation_link.uri, []⟩
            have hrest := ih
              (processReleases net md cp.release_attestations
                (entry.component_attestation_link.uri :: visited)
                ⟨some cp, [], entry.component_attestation_link.uri, []⟩).2.1
              { agg with components := agg.components ++
                  [(processReleases net md cp.release_attestations
                    (entry.component_attestation_link.uri :: visited)
                    ⟨some cp, [], entry.component_attestation_link.uri, []⟩).1] }
            have hcomb := trace_step (entry.component_attestation_link.uri :: visited)
              _ _ _ _ hrel.1 hrel.2.1 hrel.2.2 hrest.1 hrest.2.1 hrest.2.2
            simp only [processComponents, if_neg h1, if_neg h2, hproc]
            have hstep := trace_cons_step entry.component_attestation_link.uri visited _ _
              h1 hcomb.1 hcomb.2.1 hcomb.2.2
            simpa [List.append_assoc] using hstep
          | Catalog c =>
            have h := ih (entry.component_attestation_link.uri :: visited)
              { agg with component_errors := agg.component_errors ++
                  [(entry.component_attestation_link.uri,
                    expectedComponentMsg (ChainsightsPredicate.Catalog c))] }
            simp only [processComponents, if_neg h1, if_neg h2, hproc]
            exact trace_cons_step entry.component_attestation_link.uri visited _ _
              h1 h.1 h.2.1 h.2.2
          | Release rp =>
            have h := ih (entry.component_attestation_link.uri :: visited)
              { agg with component_errors := agg.component_errors ++
                  [(entry.component_attestation_link.uri,
                    expectedComponentMsg (ChainsightsPredicate.Release rp))] }
            simp only [processComponents, if_neg h1, if_neg h2, hproc]
            exact trace_cons_step entry.component_attestation_link.uri visited _ _
              h1 h.1 h.2.1 h.2.2
          | Unknown t =>
            have h := ih (entry.component_attestation_link.uri :: visited)
              { agg with component_errors := agg.component_errors ++
                  [(entry.component_attestation_link.uri,
                    expectedComponentMsg (ChainsightsPredicate.Unknown t))] }
            simp only [processComponents, if_neg h1, if_neg h2, hproc]
            exact trace_cons_step entry.component_attestation_link.uri visited _ _
              h1 h.1 h.2.1 h.2.2

/-- The release loop preserves the component predicate and link URI of the
accumulator and adds exactly one entry — a release or a release error —
per release link (so failures never stop the remaining siblings). -/
lemma processReleases_acc (net : Net) (md : Nat) (links : List AttestationLink) :
    ∀ (visited : List String) (acc : AggregatedComponentData),
      (processReleases net md links visited acc).1.component_predicate =
        acc.component_predicate ∧
      (processReleases net md links visited acc).1.component_link_uri =
        acc.component_link_uri ∧
      (processReleases net md links visited acc).1.releases.length +
        (processReleases net md links visited acc).1.release_errors.length =
        acc.releases.length + acc.release_errors.length + links.length := by
  induction links with
  | nil => intro visited acc; simp [processReleases]
  | cons link rest ih =>
    intro visited acc
    by_cases h1 : link.uri ∈ visited
    · have h := ih visited
        { acc with release_errors := acc.release_errors ++ [(link.uri, cycleMsg link.uri)] }
      simp only [processReleases, if_pos h1]
      refine ⟨h.1, h.2.1, ?_⟩
      rw [h.2.2]; simp; omega
    · by_cases h2 : 1 + 1 ≥ md
      · have h := ih visited
          { acc with release_errors :=
              acc.release_errors ++ [(link.uri, depthWouldMsg md link.uri)] }
        simp only [processReleases, if_neg h1, if_pos h2]
        refine ⟨h.1, h.2.1, ?_⟩
        rw [h.2.2]; simp; omega
      · have h2' : (2 : Nat) < md := by omega
        have hproc := (process_attestation_uri_cases net md link.uri
          link.expected_signer_identity visited 2).2.2 h1 h2'
        rcases hnet : net link.uri link.expected_signer_identity with e | p
        · rw [hnet] at hproc
          have h := ih (link.uri :: visited)
            { acc with release_errors := acc.release_errors ++ [(link.uri, e)] }
          simp only [processReleases, if_neg h1, if_neg h2, hproc]
          refine ⟨h.1, h.2.1, ?_⟩
          rw [h.2.2]; simp; omega
        · rw [hnet] at hproc
          cases p with
          | Catalog c =>
            have h := ih (link.uri :: visited)
              { acc with release_errors := acc.release_errors ++
                  [(link.uri, expectedReleaseMsg (ChainsightsPredicate.Catalog c))] }
            simp only [processReleases, if_neg h1, if_neg h2, hproc]
            refine ⟨h.1, h.2.1, ?_⟩
            rw [h.2.2]; simp; omega
          | Component c =>
            have h := ih (link.uri :: visited)
              { acc with release_errors := acc.release_errors ++
                  [(link.uri, expectedReleaseMsg (ChainsightsPredicate.Component c))] }
            simp only [processReleases, if_neg h1, if_neg h2, hproc]
            refine ⟨h.1, h.2.1, ?_⟩
            rw [h.2.2]; simp; omega
          | Release rp =>
            have h := ih (link.uri :: visited)
              { acc with releases := acc.releases ++
                  [⟨some rp, rp.metadata_links.getD [], link.uri, []⟩] }
            simp only [processReleases, if_neg h1, if_neg h2, hproc]
            refine ⟨h.1, h.2.1, ?_⟩
            rw [h.2.2]; simp; omega
          | Unknown t =>
            have h := ih (link.uri :: visited)
              { acc with release_errors := acc.release_errors ++
                  [(link.uri, expectedReleaseMsg (ChainsightsPredicate.Unknown t))] }
            simp only [processReleases, if_neg h1, if_neg h2, hproc]
            refine ⟨h.1, h.2.1, ?_⟩
            rw [h.2.2]; simp; omega

/-- The component loop preserves the catalog predicate and root error of
the aggregator and adds exactly one entry — a component or a component
error — per catalog entry (so failures never stop the remaining
siblings). -/
lemma processComponents_acc (net : Net) (md : Nat)
    (entries : List CatalogComponentEntry) :
    ∀ (visited : List String) (agg : AggregatedCatalogData),
      (processComponents net md entries visited agg).1.catalog_predicate =
        agg.catalog_predicate ∧
      (processComponents net md entries visited agg).1.root_error = agg.root_error ∧
      (processComponents net md entries visited agg).1.components.length +
        (processComponents net md entries visited agg).1.component_errors.length =
        agg.components.length + agg.component_errors.length + entries.length := by
  induction entries with
  | nil => intro visited agg; simp [processComponents]
  | cons entry rest ih =>
    intro visited agg
    by_cases h1 : entry.component_attestation_link.uri ∈ visited
    · have h := ih visited
        { agg with component_errors := agg.component_errors ++
            [(entry.component_attestation_link.uri,
              cycleMsg entry.component_attestation_link.uri)] }
      simp only [processComponents, if_pos h1]
      refine ⟨h.1, h.2.1, ?_⟩
      rw [h.2.2]; simp; omega
    · by_cases h2 : 0 + 1 ≥ md
      · have h := ih visited
          { agg with component_errors := agg.component_errors ++
              [(entry.component_attestation_link.uri,
                depthWouldMsg md entry.component_attestation_link.uri)] }
        simp only [processComponents, if_neg h1, if_pos h2]
        refine ⟨h.1, h.2.1, ?_⟩
        rw [h.2.2]; simp; omega
      · have h2' : (1 : Nat) < md := by omega
        have hproc := (process_attestation_uri_cases net md
          entry.component_attestation_link.uri
          entry.component_attestation_link.expected_signer_identity visited 1).2.2 h1 h2'
        rcases hnet : net entry.component_attestation_link.uri
            entry.component_attestation_link.expected_signer_identity with e | p
        · rw [hnet] at hproc
          have h := ih (entry.component_attestation_link.uri :: visited)
            { agg with component_errors := agg.component_errors ++
                [(entry.component_attestation_link.uri, e)] }
          simp only [processComponents, if_neg h1, if_neg h2, hproc]
          refine ⟨h.1, h.2.1, ?_⟩
          rw [h.2.2]; simp; omega
        · rw [hnet] at hproc
          cases p with
          | Component cp =>
            have h := ih
              (processReleases net md cp.release_attestations
                (entry.component_attestation_link.uri :: visited)
                ⟨some cp, [], entry.component_attestation_link.uri, []⟩).2.1
              { agg with components := agg.components ++
                  [(processReleases net md cp.release_attestations
                    (entry.component_attestation_link.uri :: visited)
                    ⟨some cp, [], entry.component_attestation_link.uri, []⟩).1] }
            simp only [processComponents, if_neg h1, if_neg h2, hproc]
            refine ⟨h.1, h.2.1, ?_⟩
            rw [h.2.2]; simp; omega
          | Catalog c =>
            have h := ih (entry.component_attestation_link.uri :: visited)
              { agg with component_errors := agg.component_errors ++
                  [(entry.component_attestation_link.uri,
                    expectedComponentMsg (ChainsightsPredicate.Catalog c))] }
            simp only [processComponents, if_neg h1, if_neg h2, hproc]
            refine ⟨h.1, h.2.1, ?_⟩
            rw [h.2.2]; simp; omega
          | Release rp =>
            have h := ih (entry.component_attestation_link.uri :: visited)
              { agg with component_errors := agg.component_errors ++
                  [(entry.component_attestation_link.uri,
                    expectedComponentMsg (ChainsightsPredicate.Release rp))] }
            simp only [processComponents, if_neg h1, if_neg h2, hproc]
            refine ⟨h.1, h.2.1, ?_⟩
            rw [h.2.2]; simp; omega
          | Unknown t =>
            have h := ih (entry.component_attestation_link.uri :: visited)
              { agg with component_errors := agg.component_errors ++
                  [(entry.component_attestation_link.uri,
                    expectedComponentMsg (ChainsightsPredicate.Unknown t))] }
            simp only [processComponents, if_neg h1, if_neg h2, hproc]
            refine ⟨h.1, h.2.1, ?_⟩
            rw [h.2.2]; simp; omega

/-- Every component record the loop adds carries its Component predicate
and one release-or-error entry per declared release attestation. -/
lemma processComponents_comps (net : Net) (md : Nat)
    (entries : List CatalogComponentEntry) :
    ∀ (visited : List String) (agg : AggregatedCatalogData)
      (c : AggregatedComponentData),
      c ∈ (processComponents net md entries visited agg).1.components →
      c ∈ agg.components ∨ ∃ p, c.component_predicate = some p ∧
        c.releases.length + c.release_errors.length =
          p.release_attestations.length := by
  induction entries with
  | nil =>
    intro visited agg c hc
    simp only [processComponents] at hc
    exact Or.inl hc
  | cons entry rest ih =>
    intro visited agg c hc
    by_cases h1 : entry.component_attestation_link.uri ∈ visited
    · simp only [processComponents, if_pos h1] at hc
      have hres := ih visited _ c hc
      exact hres
    · by_cases h2 : 0 + 1 ≥ md
      · simp only [processComponents, if_neg h1, if_pos h2] at hc
        have hres := ih visited _ c hc
        exact hres
      · have h2' : (1 : Nat) < md := by omega
        have hproc := (process_attestation_uri_cases net md
          entry.component_attestation_link.uri
          entry.component_attestation_link.expected_signer_identity visited 1).2.2 h1 h2'
        rcases hnet : net entry.component_attestation_link.uri
            entry.component_attestation_link.expected_signer_identity with e | p
        · rw [hnet] at hproc
          simp only [processComponents, if_neg h1, if_neg h2, hproc] at hc
          have hres := ih _ _ c hc
          exact hres
        · rw [hnet] at hproc
          cases p with
          | Component cp =>
            simp only [processComponents, if_neg h1, if_neg h2, hproc] at hc
            rcases ih _ _ c hc with hmem | hex
            · rcases List.mem_append.mp hmem with hold | hnew
              · exact Or.inl hold
              · rcases List.mem_singleton.mp hnew with rfl
                have hacc := processReleases_acc net md cp.release_attestations
                  (entry.component_attestation_link.uri :: visited)
                  ⟨some cp, [], entry.component_attestation_link.uri, []⟩
                refine Or.inr ⟨cp, hacc.1, ?_⟩
                have := hacc.2.2
                simpa using this
            · exact Or.inr hex
          | Catalog cc =>
            simp only [processComponents, if_neg h1, if_neg h2, hproc] at hc
            have hres := ih _ _ c hc
            exact hres
          | Release rp =>
            simp only [processComponents, if_neg h1, if_neg h2, hproc] at hc
            have hres := ih _ _ c hc
            exact hres
          | Unknown t =>
            simp only [processComponents, if_neg h1, if_neg h2, hproc] at hc
            have hres := ih _ _ c hc
            exact hres

/-- Component errors already recorded survive the rest of the loop. -/
lemma processComponents_errs_mono (net : Net) (md : Nat)
    (entries : List CatalogComponentEntry) :
    ∀ (visited : List String) (agg : AggregatedCatalogData)
      (err : String × String),
      err ∈ agg.component_errors →
      err ∈ (processComponents net md entries visited agg).1.component_errors := by
  induction entries with
  | nil =>
    intro visited agg err herr
    simpa [processComponents] using herr
  | cons entry rest ih =>
    intro visited agg err herr
    by_cases h1 : entry.component_attestation_link.uri ∈ visited
    · simp only [processComponents, if_pos h1]
      exact ih visited _ err (List.mem_append_left _ herr)
    · by_cases h2 : 0 + 1 ≥ md
      · simp only [processComponents, if_neg h1, if_pos h2]
        exact ih visited _ err (List.mem_append_left _ herr)
      · have h2' : (1 : Nat) < md := by omega
        have hproc := (process_attestation_uri_cases net md
          entry.component_attestation_link.uri
          entry.component_attestation_link.expected_signer_identity visited 1).2.2 h1 h2'
        rcases hnet : net entry.component_attestation_link.uri
            entry.component_attestation_link.expected_signer_identity with e | p
        · rw [hnet] at hproc
          simp only [processComponents, if_neg h1, if_neg h2, hproc]
          exact ih _ _ err (List.mem_append_left _ herr)
        · rw [hnet] at hproc
          cases p with
          | Component cp =>
            simp only [processComponents, if_neg h1, if_neg h2, hproc]
            exact ih _ _ err herr
          | Catalog cc =>
            simp only [processComponents, if_neg h1, if_neg h2, hproc]
            exact ih _ _ err (List.mem_append_left _ herr)
          | Release rp =>
            simp only [processComponents, if_neg h1, if_neg h2, hproc]
            exact ih _ _ err (List.mem_append_left _ herr)
          | Unknown t =>
            simp only [processComponents, if_neg h1, if_neg h2, hproc]
            exact ih _ _ err (List.mem_append_left _ herr)

/-- Any catalog entry whose URI is already visited when the loop starts
gets a Cycle component error recorded. -/
lemma processComponents_cycle (net : Net) (md : Nat)
    (entries : List CatalogComponentEntry) :
    ∀ (visited : List String) (agg : AggregatedCatalogData)
      (entry : CatalogComponentEntry),
      entry ∈ entries → entry.component_attestation_link.uri ∈ visited →
      (entry.component_attestation_link.uri,
        cycleMsg entry.component_attestation_link.uri) ∈
        (processComponents net md entries visited agg).1.component_errors := by
  induction entries with
  | nil =>
    intro visited agg entry hmem
    cases hmem
  | cons head rest ih =>
    intro visited agg entry hmem hvis
    rcases List.mem_cons.mp hmem with rfl | htail
    · simp only [processComponents, if_pos hvis]
      exact processComponents_errs_mono net md rest visited _ _
        (List.mem_append_right _ (List.mem_singleton.mpr rfl))
    · by_cases h1 : head.component_attestation_link.uri ∈ visited
      · simp only [processComponents, if_pos h1]
        exact ih visited _ entry htail hvis
      · by_cases h2 : 0 + 1 ≥ md
        · simp only [processComponents, if_neg h1, if_pos h2]
          exact ih visited _ entry htail hvis
        · have h2' : (1 : Nat) < md := by omega
          have hproc := (process_attestation_uri_cases net md
            head.component_attestation_link.uri
            head.component_attestation_link.expected_signer_identity visited 1).2.2 h1 h2'
          rcases hnet : net head.component_attestation_link.uri
              head.component_attestation_link.expected_signer_identity with e | p
          · rw [hnet] at hproc
            simp only [processComponents, if_neg h1, if_neg h2, hproc]
            exact ih _ _ entry htail
              (List.mem_cons_of_mem _ hvis)
          · rw [hnet] at hproc
            cases p with
            | Component cp =>
              simp only [processComponents, if_neg h1, if_neg h2, hproc]
              refine ih _ _ entry htail ?_
              exact (processReleases_inv net md cp.release_attestations
                (head.component_attestation_link.uri :: visited)
                ⟨some cp, [], head.component_attestation_link.uri, []⟩).1
                (List.mem_cons_of_mem _ hvis)
            | Catalog cc =>
              simp only [processComponents, if_neg h1, if_neg h2, hproc]
              exact ih _ _ entry htail (List.mem_cons_of_mem _ hvis)
            | Release rp =>
              simp only [processComponents, if_neg h1, if_neg h2, hproc]
              exact ih _ _ entry htail (List.mem_cons_of_mem _ hvis)
            | Unknown t =>
              simp only [processComponents, if_neg h1, if_neg h2, hproc]
              exact ih _ _ entry htail (List.mem_cons_of_mem _ hvis)

/-- The fetch log of a whole traversal has no duplicate URI. -/
lemma traverse_core_nodup (net : Net) (md : Nat) (root ident : String) :
    ((traverse_core net md root ident).2.2).Nodup := by
  by_cases h0 : (0 : Nat) ≥ md
  · have hproc := (process_attestation_uri_cases net md root ident [] 0).2.1
      (List.not_mem_nil root) h0
    simp [traverse_core, hproc]
  · have hproc := (process_attestation_uri_cases net md root ident [] 0).2.2
      (List.not_mem_nil root) (by omega)
    rcases hnet : net root ident with e | p
    · rw [hnet] at hproc
      simp [traverse_core, hproc]
    · rw [hnet] at hproc
      cases p with
      | Catalog c =>
        have h := processComponents_inv net md c.components [root] ⟨some c, [], none, []⟩
        simp only [traverse_core, hproc, List.singleton_append]
        rw [List.nodup_cons]
        refine ⟨fun hmem => ?_, h.2.1⟩
        exact (h.2.2 root hmem).1 (List.mem_singleton.mpr rfl)
      | Component c => simp [traverse_core, hproc]
      | Release r => simp [traverse_core, hproc]
      | Unknown t => simp [traverse_core, hproc]

/-- C2: a URI already in the visited set is rejected with a Cycle error
and no network call; otherwise the URI is inserted into the visited set
and fetched in the same step (so every fetch is of a URI already marked
visited); consequently no URI is fetched twice in a traversal; and a
single-component catalog pointing back at the root yields exactly one
Cycle componentError and exactly the one root fetch. -/
theorem traversal_cycle_safety :
    (∀ (net : Net) (md : Nat) (uri ident : String) (visited : List String) (depth : Nat),
      uri ∈ visited →
      process_attestation_uri net md uri ident visited depth =
        (Except.error (cycleMsg uri), visited, [])) ∧
    (∀ (net : Net) (md : Nat) (uri ident : String) (visited : List String) (depth : Nat),
      uri ∉ visited → depth < md →
      process_attestation_uri net md uri ident visited depth =
        (net uri ident, uri :: visited, [uri])) ∧
    (∀ (net : Net) (root ident : String),
      ((traverse_core net MAX_DEPTH root ident).2.2).Nodup) ∧
    (∀ (net : Net) (root ident ts : String) (entry : CatalogComponentEntry),
      net root ident = Except.ok (ChainsightsPredicate.Catalog ⟨ts, [entry]⟩) →
      entry.component_attestation_link.uri = root →
      (traverse_core net MAX_DEPTH root ident).1.component_errors =
        [(root, cycleMsg root)] ∧
      (traverse_core net MAX_DEPTH root ident).1.components = [] ∧
      (traverse_core net MAX_DEPTH root ident).2.2 = [root]) := by
  refine ⟨?_, ?_, ?_, ?_⟩
  · intro net md uri ident visited depth h
    exact (process_attestation_uri_cases net md uri ident visited depth).1 h
  · intro net md uri ident visited depth h1 h2
    exact (process_attestation_uri_cases net md uri ident visited depth).2.2 h1 h2
  · intro net root ident
    exact traverse_core_nodup net MAX_DEPTH root ident
  · intro net root ident ts entry hnet huri
    have hproc := (process_attestation_uri_cases net MAX_DEPTH root ident [] 0).2.2
      (List.not_mem_nil root) (by decide)
    rw [hnet] at hproc
    have hmem : entry.component_attestation_link.uri ∈ [root] := by
      rw [huri]; exact List.mem_singleton.mpr rfl
    refine ⟨?_, ?_, ?_⟩ <;>
      simp [traverse_core, hproc, processComponents, hmem, huri]

/-- Oracle for the C2 witness: the root catalog has one component entry
that points back at the root URI. -/
def netC2 : Net := fun u _ =>
  if u = "root" then
    Except.ok (ChainsightsPredicate.Catalog ⟨"t",
      [⟨"core", "pkg:c", ⟨"root", none, none, "id"⟩⟩]⟩)
  else Except.error "not found"

/-- Witness for C2: the visited check fires on a concrete revisit, and the
self-referential catalog produces exactly one Cycle error and one fetch. -/
theorem traversal_cycle_safety_witness :
    process_attestation_uri netC2 MAX_DEPTH "root" "id" ["root"] 1 =
      (Except.error (cycleMsg "root"), ["root"], []) ∧
    (traverse_core netC2 MAX_DEPTH "root" "id").1.component_errors =
      [("root", cycleMsg "root")] ∧
    (traverse_core netC2 MAX_DEPTH "root" "id").2.2 = ["root"] := by
  refine ⟨?_, ?_, ?_⟩
  · exact traversal_cycle_safety.1 netC2 MAX_DEPTH "root" "id" ["root"] 1 (by decide)
  · exact (traversal_cycle_safety.2.2.2 netC2 "root" "id" "t"
      ⟨"core", "pkg:c", ⟨"root", none, none, "id"⟩⟩ (by decide) rfl).1
  · exact (traversal_cycle_safety.2.2.2 netC2 "root" "id" "t"
      ⟨"core", "pkg:c", ⟨"root", none, none, "id"⟩⟩ (by decide) rfl).2.2

/-- C8: the traversal always returns Ok with the aggregator; a root
failure is recorded in rootError (leaving components and componentErrors
empty), a non-Catalog root is recorded in rootError, and under a Catalog
root every catalog entry contributes exactly one component or one
componentError, and inside each aggregated component every declared
release attestation contributes exactly one release or one releaseError
— siblings always continue. -/
theorem traversal_nonfatal :
    (∀ (net : Net) (root ident : String),
      traverse_and_aggregate net root ident =
        Except.ok (traverse_core net MAX_DEPTH root ident).1) ∧
    (∀ (net : Net) (root ident e : String),
      net root ident = Except.error e →
      (traverse_core net MAX_DEPTH root ident).1 =
        ⟨none, [], some (rootFailMsg root e), []⟩) ∧
    (∀ (net : Net) (root ident : String) (p : ChainsightsPredicate),
      net root ident = Except.ok p →
      (∀ c, p ≠ ChainsightsPredicate.Catalog c) →
      (traverse_core net MAX_DEPTH root ident).1 =
        ⟨none, [], some (expectedCatalogMsg root p), []⟩) ∧
    (∀ (net : Net) (root ident : String) (c : ChainsightsCatalogPredicate),
      net root ident = Except.ok (ChainsightsPredicate.Catalog c) →
      (traverse_core net MAX_DEPTH root ident).1.root_error = none ∧
      (traverse_core net MAX_DEPTH root ident).1.catalog_predicate = some c ∧
      (traverse_core net MAX_DEPTH root ident).1.components.length +
        (traverse_core net MAX_DEPTH root ident).1.component_errors.length =
        c.components.length ∧
      ∀ comp ∈ (traverse_core net MAX_DEPTH root ident).1.components,
        ∃ p, comp.component_predicate = some p ∧
          comp.releases.length + comp.release_errors.length =
            p.release_attestations.length) := by
  refine ⟨?_, ?_, ?_, ?_⟩
  · intro net root ident; rfl
  · intro net root ident e hnet
    have hproc := (process_attestation_uri_cases net MAX_DEPTH root ident [] 0).2.2
      (List.not_mem_nil root) (by decide)
    rw [hnet] at hproc
    simp [traverse_core, hproc]
  · intro net root ident p hnet hnc
    have hproc := (process_attestation_uri_cases net MAX_DEPTH root ident [] 0).2.2
      (List.not_mem_nil root) (by decide)
    rw [hnet] at hproc
    cases p with
    | Catalog c => exact absurd rfl (hnc c)
    | Component c => simp [traverse_core, hproc]
    | Release r => simp [traverse_core, hproc]
    | Unknown t => simp [traverse_core, hproc]
  · intro net root ident c hnet
    have hproc := (process_attestation_uri_cases net MAX_DEPTH root ident [] 0).2.2
      (List.not_mem_nil root) (by decide)
    rw [hnet] at hproc
    have hacc := processComponents_acc net MAX_DEPTH c.components [root]
      ⟨some c, [], none, []⟩
    refine ⟨?_, ?_, ?_, ?_⟩
    · simp only [traverse_core, hproc]
      exact hacc.2.1
    · simp only [traverse_core, hproc]
      exact hacc.1
    · simp only [traverse_core, hproc]
      rw [hacc.2.2]; simp
    · intro comp hmem
      simp only [traverse_core, hproc] at hmem
      rcases processComponents_comps net MAX_DEPTH c.components [root]
          ⟨some c, [], none, []⟩ comp hmem with h | h
      · exact absurd h (List.not_mem_nil comp)
      · exact h

/-- Witness for C8: a root fetch failure still yields Ok with the failure
recorded in rootError. -/
theorem traversal_nonfatal_witness :
    traverse_and_aggregate (fun _ _ => Except.error "boom") "r" "i" =
      Except.ok ⟨none, [], some (rootFailMsg "r" "boom"), []⟩ := by
  have h1 := traversal_nonfatal.1 (fun _ _ => Except.error "boom") "r" "i"
  have h2 := traversal_nonfatal.2.1 (fun _ _ => Except.error "boom") "r" "i" "boom" rfl
  rw [h1, h2]

/- ## Depth-branch reachability (C10) -/

/-- `process_attestation_uri` with its DepthExceeded branch deleted. -/
def process_attestation_uri_nodep (net : Net) (uri expected_identity : String)
    (visited : List String) :
    Except String ChainsightsPredicate × List String × List String :=
  if uri ∈ visited then
    (Except.error (cycleMsg uri), visited, [])
  else
    (net uri expected_identity, uri :: visited, [uri])

/-- The release loop with both its depth pre-check and the callee depth
branch deleted. -/
def processReleases_nodep (net : Net) :
    List AttestationLink → List String → AggregatedComponentData →
    AggregatedComponentData × List String × List String
  | [], visited, acc => (acc, visited, [])
  | release_link :: rest, visited, acc =>
    let uri := release_link.uri
    if uri ∈ visited then
      processReleases_nodep net rest visited
        { acc with release_errors := acc.release_errors ++ [(uri, cycleMsg uri)] }
    else
      match process_attestation_uri_nodep net uri
          release_link.expected_signer_identity visited with
      | (Except.ok (ChainsightsPredicate.Release rp), v1, l1) =>
        let r := processReleases_nodep net rest v1
          { acc with releases := acc.releases ++
              [⟨some rp, rp.metadata_links.getD [], uri, []⟩] }
        (r.1, r.2.1, l1 ++ r.2.2)
      | (Except.ok other, v1, l1) =>
        let r := processReleases_nodep net rest v1
          { acc with release_errors :=
              acc.release_errors ++ [(uri, expectedReleaseMsg other)] }
        (r.1, r.2.1, l1 ++ r.2.2)
      | (Except.error e, v1, l1) =>
        let r := processReleases_nodep net rest v1
          { acc with release_errors := acc.release_errors ++ [(uri, e)] }
        (r.1, r.2.1, l1 ++ r.2.2)

/-- The component loop with both its depth pre-check and the callee depth
branch deleted. -/
def processComponents_nodep (net : Net) :
    List CatalogComponentEntry → List String → AggregatedCatalogData →
    AggregatedCatalogData × List String × List String
  | [], visited, agg => (agg, visited, [])
  | component :: rest, visited, agg =>
    let uri := component.component_attestation_link.uri
    if uri ∈ visited then
      processComponents_nodep net rest visited
        { agg with component_errors := agg.component_errors ++ [(uri, cycleMsg uri)] }
    else
      match process_attestation_uri_nodep net uri
          component.component_attestation_link.expected_signer_identity visited with
      | (Except.ok (ChainsightsPredicate.Component cp), v1, l1) =>
        let rr := processReleases_nodep net cp.release_attestations v1
          ⟨some cp, [], uri, []⟩
        let r := processComponents_nodep net rest rr.2.1
          { agg with components := agg.components ++ [rr.1] }
        (r.1, r.2.1, l1 ++ rr.2.2 ++ r.2.2)
      | (Except.ok other, v1, l1) =>
        let r := processComponents_nodep net rest v1
          { agg with component_errors :=
              agg.component_errors ++ [(uri, expectedComponentMsg other)] }
        (r.1, r.2.1, l1 ++ r.2.2)
      | (Except.error e, v1, l1) =>
        let r := processComponents_nodep net rest v1
          { agg with component_errors := agg.component_errors ++ [(uri, e)] }
        (r.1, r.2.1, l1 ++ r.2.2)

/-- The traversal with every DepthExceeded branch deleted. -/
def traverse_core_nodep (net : Net) (root_uri root_identity : String) :
    AggregatedCatalogData × List String × List String :=
  match process_attestation_uri_nodep net root_uri root_identity [] with
  | (Except.ok (ChainsightsPredicate.Catalog catalog), v1, l1) =>
    let r := processComponents_nodep net catalog.components v1
      ⟨some catalog, [], none, []⟩
    (r.1, r.2.1, l1 ++ r.2.2)
  | (Except.ok other, v1, l1) =>
    (⟨none, [], some (expectedCatalogMsg root_uri other), []⟩, v1, l1)
  | (Except.error e, v1, l1) =>
    (⟨none, [], some (rootFailMsg root_uri e), []⟩, v1, l1)

/-- At any depth below the bound the depth branch of
`process_attestation_uri` is dead code. -/
lemma process_attestation_uri_eq_nodep (net : Net) (md : Nat)
    (uri ident : String) (visited : List String) (depth : Nat) (h : depth < md) :
    process_attestation_uri net md uri ident visited depth =
      process_attestation_uri_nodep net uri ident visited := by
  by_cases h1 : uri ∈ visited
  · simp [process_attestation_uri, process_attestation_uri_nodep, h1]
  · have h2 : ¬ depth ≥ md := by omega
    simp [process_attestation_uri, process_attestation_uri_nodep, h1, h2]

/-- With the hard-coded bound of 10 the release loop never takes a depth
branch. -/
lemma processReleases_eq_nodep (net : Net) (links : List AttestationLink) :
    ∀ (visited : List String) (acc : AggregatedComponentData),
      processReleases net MAX_DEPTH links visited acc =
        processReleases_nodep net links visited acc := by
  induction links with
  | nil => intro visited acc; rfl
  | cons link rest ih =>
    intro visited acc
    by_cases h1 : link.uri ∈ visited
    · simp only [processReleases, processReleases_nodep, if_pos h1]
      exact ih visited _
    · have h2 : ¬ 1 + 1 ≥ MAX_DEPTH := by decide
      have hstep := process_attestation_uri_eq_nodep net MAX_DEPTH link.uri
        link.expected_signer_identity visited 2 (by decide)
      have hproc : process_attestation_uri_nodep net link.uri
          link.expected_signer_identity visited =
          (net link.uri link.expected_signer_identity, link.uri :: visited, [link.uri]) := by
        simp [process_attestation_uri_nodep, h1]
      rcases hnet : net link.uri link.expected_signer_identity with e | p
      · rw [hnet] at hproc
        simp only [processReleases, processReleases_nodep, if_neg h1, if_neg h2,
          hstep, hproc, ih]
      · rw [hnet] at hproc
        cases p <;>
          simp only [processReleases, processReleases_nodep, if_neg h1, if_neg h2,
            hstep, hproc, ih]

/-- With the hard-coded bound of 10 the component loop never takes a depth
branch. -/
lemma processComponents_eq_nodep (net : Net) (entries : List CatalogComponentEntry) :
    ∀ (visited : List String) (agg : AggregatedCatalogData),
      processComponents net MAX_DEPTH entries visited agg =
        processComponents_nodep net entries visited agg := by
  induction entries with
  | nil => intro visited agg; rfl
  | cons entry rest ih =>
    intro visited agg
    by_cases h1 : entry.component_attestation_link.uri ∈ visited
    · simp only [processComponents, processComponents_nodep, if_pos h1]
      exact ih visited _
    · have h2 : ¬ 0 + 1 ≥ MAX_DEPTH := by decide
      have hstep := process_attestation_uri_eq_nodep net MAX_DEPTH
        entry.component_attestation_link.uri
        entry.component_attestation_link.expected_signer_identity visited 1 (by decide)
      have hproc : process_attestation_uri_nodep net
          entry.component_attestation_link.uri
          entry.component_attestation_link.expected_signer_identity visited =
          (net entry.component_attestation_link.uri
            entry.component_attestation_link.expected_signer_identity,
            entry.component_attestation_link.uri :: visited,
            [entry.component_attestation_link.uri]) := by
        simp [process_attestation_uri_nodep, h1]
      rcases hnet : net entry.component_attestation_link.uri
          entry.component_attestation_link.expected_signer_identity with e | p
      · rw [hnet] at hproc
        simp only [processComponents, processComponents_nodep, if_neg h1, if_neg h2,
          hstep, hproc, ih]
      · rw [hnet] at hproc
        cases p <;>
          simp only [processComponents, processComponents_nodep, if_neg h1, if_neg h2,
            hstep, hproc, ih, processReleases_eq_nodep]

/-- C10: the depth limit is the hard-coded constant MAX_DEPTH = 10, the
traversal only ever calls processAttestationUri with depths 0, 1 and 2,
and at those depths (and in the two pre-call checks comparing 0+1 and 1+1
against 10) every DepthExceeded branch is dead: the traversal is
extensionally equal to the same code with all depth branches deleted. -/
theorem depth_branches_unreachable :
    MAX_DEPTH = 10 ∧
    (∀ (net : Net) (uri ident : String) (visited : List String) (depth : Nat),
      depth ≤ 2 →
      process_attestation_uri net MAX_DEPTH uri ident visited depth =
        process_attestation_uri_nodep net uri ident visited) ∧
    (∀ (net : Net) (root ident : String),
      traverse_core net MAX_DEPTH root ident = traverse_core_nodep net root ident) := by
  refine ⟨rfl, ?_, ?_⟩
  · intro net uri ident visited depth hd
    exact process_attestation_uri_eq_nodep net MAX_DEPTH uri ident visited depth
      (by have h10 : MAX_DEPTH = 10 := rfl; omega)
  · intro net root ident
    have hstep := process_attestation_uri_eq_nodep net MAX_DEPTH root ident [] 0
      (by decide)
    simp only [traverse_core, traverse_core_nodep, hstep,
      processComponents_eq_nodep]

/-- Witness for C10 at a concrete call: at depth 2 under the hard-coded
bound the depth-checked and depth-free functions agree. -/
theorem depth_branches_unreachable_witness :
    process_attestation_uri netC2 MAX_DEPTH "x" "id" ["root"] 2 =
      process_attestation_uri_nodep netC2 "x" "id" ["root"] ∧
    traverse_core netC2 MAX_DEPTH "root" "id" = traverse_core_nodep netC2 "root" "id" :=
  ⟨depth_branches_unreachable.2.1 netC2 "x" "id" ["root"] 2 (by decide),
   depth_branches_unreachable.2.2 netC2 "root" "id"⟩

/- ## Depth bound behaviour (C3) -/

/-- Catalog entry of the concrete C3 scenario, pointing at component
manifest "c1". -/
def entry3 : CatalogComponentEntry := ⟨"core", "pkg:c", ⟨"c1", none, none, "id"⟩⟩

/-- Component predicate of the concrete C3 scenario, with one release
attestation at "r1". -/
def comp3 : ChainsightsComponentPredicate :=
  ⟨"t", "pkg:c", "core", [⟨"r1", none, none, "id"⟩]⟩

/-- Release predicate of the concrete C3 scenario. -/
def rel3 : ChainsightsReleasePredicate := ⟨"t", "pkg:c@1", "v1", none⟩

/-- Oracle of the concrete C3 scenario: a root catalog with one component
which has one release. -/
def net3 : Net := fun u _ =>
  if u = "root" then Except.ok (ChainsightsPredicate.Catalog ⟨"t", [entry3]⟩)
  else if u = "c1" then Except.ok (ChainsightsPredicate.Component comp3)
  else if u = "r1" then Except.ok (ChainsightsPredicate.Release rel3)
  else Except.error "404"

/-- C3 counterexample: with maxDepth = 2 the release-level URI is NOT
processed — the pre-call check `1 + 1 >= max_depth` fires, the release is
skipped with a DepthExceeded releaseError and "r1" is never fetched; and
with maxDepth = 1 the DepthExceeded error is recorded as a
componentError (the component itself is skipped), not a releaseError. -/
theorem depth_bound_counterexample :
    (traverse_core net3 2 "root" "id").2.2 = ["root", "c1"] ∧
    (traverse_core net3 2 "root" "id").1.components =
      [⟨some comp3, [], "c1", [("r1", depthWouldMsg 2 "r1")]⟩] ∧
    (traverse_core net3 1 "root" "id").1.components = [] ∧
    (traverse_core net3 1 "root" "id").1.component_errors =
      [("c1", depthWouldMsg 1 "c1")] ∧
    (traverse_core net3 1 "root" "id").2.2 = ["root"] := by decide

/-- C3 amended: the depth cutoff is exclusive, so in a
root → component → release chain the release (depth 2) is processed
exactly when maxDepth exceeds 2 (as with the hard-coded MAX_DEPTH = 10);
with maxDepth = 2 the release is skipped with a DepthExceeded
releaseError; and with maxDepth = 1 already the component is skipped with
a DepthExceeded componentError, so no release error appears. -/
theorem depth_bound_amended :
    ∀ (net : Net) (root rid ts : String) (entry : CatalogComponentEntry)
      (comp : ChainsightsComponentPredicate) (rl : AttestationLink)
      (rp : ChainsightsReleasePredicate),
      net root rid = Except.ok (ChainsightsPredicate.Catalog ⟨ts, [entry]⟩) →
      net entry.component_attestation_link.uri
          entry.component_attestation_link.expected_signer_identity =
        Except.ok (ChainsightsPredicate.Component comp) →
      comp.release_attestations = [rl] →
      net rl.uri rl.expected_signer_identity =
        Except.ok (ChainsightsPredicate.Release rp) →
      entry.component_attestation_link.uri ≠ root →
      rl.uri ≠ root → rl.uri ≠ entry.component_attestation_link.uri →
      ((traverse_core net MAX_DEPTH root rid).1.components =
        [⟨some comp, [⟨some rp, rp.metadata_links.getD [], rl.uri, []⟩],
          entry.component_attestation_link.uri, []⟩] ∧
       (traverse_core net MAX_DEPTH root rid).2.2 =
        [root, entry.component_attestation_link.uri, rl.uri]) ∧
      ((traverse_core net 2 root rid).1.components =
        [⟨some comp, [], entry.component_attestation_link.uri,
          [(rl.uri, depthWouldMsg 2 rl.uri)]⟩] ∧
       (traverse_core net 2 root rid).2.2 =
        [root, entry.component_attestation_link.uri]) ∧
      ((traverse_core net 1 root rid).1.components = [] ∧
       (traverse_core net 1 root rid).1.component_errors =
        [(entry.component_attestation_link.uri,
          depthWouldMsg 1 entry.component_attestation_link.uri)] ∧
       (traverse_core net 1 root rid).2.2 = [root]) := by
  intro net root rid ts entry comp rl rp hroot hcomp hrels hrel hcu hru1 hru2
  refine ⟨⟨?_, ?_⟩, ⟨?_, ?_⟩, ?_, ?_, ?_⟩ <;>
    simp [traverse_core, processComponents, processReleases,
      process_attestation_uri, MAX_DEPTH, hroot, hcomp, hrels, hrel,
      hcu, hru1, hru2]

/-- Witness for C3's amended theorem: under the hard-coded MAX_DEPTH = 10
the concrete scenario's release is fetched and aggregated. -/
theorem depth_bound_amended_witness :
    (traverse_core net3 MAX_DEPTH "root" "id").1.components =
      [⟨some comp3, [⟨some rel3, [], "r1", []⟩], "c1", []⟩] ∧
    (traverse_core net3 MAX_DEPTH "root" "id").2.2 = ["root", "c1", "r1"] :=
  (depth_bound_amended net3 "root" "id" "t" entry3 comp3
    ⟨"r1", none, none, "id"⟩ rel3 rfl rfl rfl rfl
    (by decide) (by decide) (by decide)).1
